import Mathlib

/-!
Verification of the scene-assembly, text-layout, glyph-cache and
hover-highlight logic of the 3d-text-experiment application
(`src/index.js`).  The rendering, camera and font-shaping concerns are
delegated by the program to external libraries (three.js,
troika-three-text); this development models the program's own state and
algorithms: the option record, the mesh heap, the glyph-mesh cache, the
line-wrapping layout, the lattice assembly and the per-frame
hover-highlight transition.  Numeric values are modelled as rationals
(the decimal literals of the source taken exactly); Euler angles are
stored as rational multiples of pi, because the source only ever forms
angles `Math.random() * Math.PI * 2`.
-/

namespace TextCube

/-- troika render information exposed on a text mesh after `sync`;
`blockBounds` is the measured bounds array (the source reads entry `[2]`,
guarded by optional chaining). -/
structure RenderInfo where
  blockBounds : Option (List ℚ)
deriving DecidableEq

/-- Per-object mutable state of a mesh held by the app.  troika `Text`
objects carry a word, font settings, a color, a position and render info.
The instanced plane mesh is modelled with an empty `text`: reading
`.text` on it yields nothing renderable, like `undefined` in the source,
and only the truthiness of `.text` is ever consulted. -/
structure MeshData where
  text : String
  fontSize : ℚ
  font : String
  maxWidth : ℚ
  color : String
  position : ℚ × ℚ × ℚ
  textRenderInfo : Option RenderInfo
deriving DecidableEq

/-- The immutable options record handed to the `App` constructor
(src/index.js:36-52).  The DOM `container` is outside the model. -/
structure Options where
  gridSize : ℕ
  gridOffset : ℚ
  rectWidth : ℚ
  rectBackgroundColor : String
  textColor : String
  highlightedTextColor : String
  fontSize : ℚ
  lineHeight : ℚ
  spaceWidth : ℚ
  fontUrl : String
  text : String
deriving DecidableEq

/-- Split a character list at spaces, keeping empty fragments; `acc`
holds the characters of the current fragment in reverse. -/
def splitSpaces : List Char → List Char → List String
  | [], acc => [String.mk acc.reverse]
  | c :: t, acc =>
    if c = ' ' then String.mk acc.reverse :: splitSpaces t []
    else splitSpaces t (c :: acc)

/-- `text.split(' ')` of src/index.js:226: fragments between space
characters, empty fragments kept (so `""` yields `[""]` and a double
space yields an empty word, as in JavaScript). -/
def wordsOf (t : String) : List String := splitSpaces t.data []

/-- Object heap: mesh objects addressed by identity.  JavaScript object
identity is modelled by the numeric id; aliasing (the cache holding the
very object that lives in the scene) is expressed by sharing ids. -/
abbrev Heap := List (ℕ × MeshData)

/-- Read the object stored under an id (first match). -/
def heapGet : Heap → ℕ → Option MeshData
  | [], _ => none
  | (k, d) :: t, i => if i = k then some d else heapGet t i

/-- Overwrite the object stored under an id (first match), modelling
mutation of a JavaScript object's fields. -/
def heapSet : Heap → ℕ → MeshData → Heap
  | [], _, _ => []
  | (k, d) :: t, i, v => if i = k then (k, v) :: t else (k, d) :: heapSet t i v

/-- `mesh.textRenderInfo?.blockBounds?.[2] || 0` (src/index.js:255):
missing render info, missing bounds, a short bounds array, or a measured
`0` all give width `0`. -/
def blockWidth (d : MeshData) : ℚ :=
  match d.textRenderInfo with
  | none => 0
  | some ri =>
    match ri.blockBounds with
    | none => 0
    | some bb => bb.getD 2 0

/-- Cursor state of `#layoutTextMeshes` together with the placements
performed so far; `stopped` models the `break` at src/index.js:264. -/
structure LayoutState where
  x : ℚ
  y : ℚ
  stopped : Bool
  placed : List ((ℕ × MeshData) × ℚ × ℚ)
deriving DecidableEq

/-- The wrap of src/index.js:258-261: when the word would exceed the rect
width, reset `x` to `0` and move `y` down one line. -/
def wrapCursor (rectWidth lineHeight : ℚ) (x y width : ℚ) : ℚ × ℚ :=
  if x + width > rectWidth then (0, y - lineHeight) else (x, y)

/-- One iteration of the `for` loop of `#layoutTextMeshes`
(src/index.js:254-276): compute the measured width, wrap if needed, stop
for good once the next line's bottom would exceed the rect height,
otherwise record the placement and advance the cursor by
`width + spaceWidth`. -/
def layoutStep (rectWidth lineHeight spaceWidth : ℚ) (s : LayoutState)
    (im : ℕ × MeshData) : LayoutState :=
  if s.stopped then s
  else
    let width := blockWidth im.2
    let c := wrapCursor rectWidth lineHeight s.x s.y width
    if c.2 - lineHeight < -rectWidth then { s with stopped := true }
    else
      { x := c.1 + width + spaceWidth, y := c.2, stopped := false,
        placed := s.placed ++ [(im, c.1, c.2)] }

/-- `#layoutTextMeshes` (src/index.js:249-277) on a list of mesh objects
(id paired with its current data); `lineHeight` is
`fontSize * options.lineHeight` as at src/index.js:251. -/
def layoutTextMeshes (opts : Options) (meshes : List (ℕ × MeshData)) :
    LayoutState :=
  meshes.foldl
    (layoutStep opts.rectWidth (opts.fontSize * opts.lineHeight) opts.spaceWidth)
    ⟨0, 0, false, []⟩

/-- State threaded through scene construction: the mesh heap, the next
fresh object id, and the glyph-mesh cache `#textMeshCache`
(src/index.js:21), mapping a word to the id of the mesh object built on
its first occurrence. -/
structure GenState where
  heap : Heap
  nextId : ℕ
  cache : List (String × ℕ)
deriving DecidableEq

/-- Lookup in the glyph cache (`Map.has` / `Map.get`). -/
def lookupCache : List (String × ℕ) → String → Option ℕ
  | [], _ => none
  | (k, v) :: t, w => if w = k then some v else lookupCache t w

/-- The fresh troika `Text` built at src/index.js:234-239: the word, the
configured font size, font url, `maxWidth = rectWidth` and default text
color; position starts at the origin and no render info exists before
`sync`. -/
def newTextMesh (opts : Options) (word : String) : MeshData :=
  { text := word, fontSize := opts.fontSize, font := opts.fontUrl,
    maxWidth := opts.rectWidth, color := opts.textColor,
    position := (0, 0, 0), textRenderInfo := none }

/-- One word of `#generateTextMeshes` (src/index.js:228-244): a cache hit
returns a clone of the cached object (a fresh id carrying a copy of the
cached object's current data); a miss builds a new mesh, stores the very
same object in the cache and returns it.  The inner `none` branch of the
hit case is unreachable for well-formed states (every cached id is in the
heap) and returns the cached id unchanged. -/
def genWord (opts : Options) (s : GenState) (word : String) : GenState × ℕ :=
  match lookupCache s.cache word with
  | some id =>
    match heapGet s.heap id with
    | some d =>
      ({ s with heap := s.heap ++ [(s.nextId, d)], nextId := s.nextId + 1 },
        s.nextId)
    | none => (s, id)
  | none =>
    ({ heap := s.heap ++ [(s.nextId, newTextMesh opts word)],
       nextId := s.nextId + 1,
       cache := s.cache ++ [(word, s.nextId)] }, s.nextId)

/-- `words.map(...)` of `#generateTextMeshes`: visit the words of the
input text in order, threading the cache state, and return the ids of the
meshes for this cell in order. -/
def genWords (opts : Options) (s : GenState) :
    List String → GenState × List ℕ
  | [] => (s, [])
  | w :: ws =>
    let r := genWord opts s w
    let rest := genWords opts r.1 ws
    (rest.1, r.2 :: rest.2)

/-- `mesh.sync(...)` for every mesh of a cell (src/index.js:246): the
text-shaping library measures the word and fills in `textRenderInfo`.
`measure` is the external shaping oracle, deterministic per word. -/
def syncMeshes (measure : String → Option RenderInfo) (h : Heap) :
    List ℕ → Heap
  | [] => h
  | id :: t =>
    match heapGet h id with
    | some d =>
      syncMeshes measure
        (heapSet h id { d with textRenderInfo := measure d.text }) t
    | none => syncMeshes measure h t

/-- Result of realizing layout placements (src/index.js:266-273): the
evolving generation state plus the front children, back children and
newly registered interactable ids. -/
structure PlaceAcc where
  gen : GenState
  front : List ℕ
  back : List ℕ
  inter : List ℕ
deriving DecidableEq

/-- Realize the layout placements in order.  For each placed mesh: set
its position (mutating the heap object), clone it into a back mesh at the
same coordinates, add front mesh and back clone to their groups and
register both as interactable.  The `none` branch is unreachable for
well-formed inputs (every placed id is in the heap). -/
def applyPlacements (s : GenState) :
    List ((ℕ × MeshData) × ℚ × ℚ) → PlaceAcc
  | [] => ⟨s, [], [], []⟩
  | q :: qs =>
    match heapGet s.heap q.1.1 with
    | some cur =>
      let d := { cur with position := (q.2.1, q.2.2, 0) }
      let rest := applyPlacements
        ⟨heapSet s.heap q.1.1 d ++ [(s.nextId, d)], s.nextId + 1, s.cache⟩ qs
      ⟨rest.gen, q.1.1 :: rest.front, s.nextId :: rest.back,
        q.1.1 :: s.nextId :: rest.inter⟩
    | none => applyPlacements s qs

/-- A front or back sub-group of a cell (src/index.js:207-215): its local
position, whether it was turned by pi around Y (the back group), and the
ids of the word meshes added to it. -/
structure SubGroup where
  position : ℚ × ℚ × ℚ
  rotatedPiY : Bool
  children : List ℕ
deriving DecidableEq

/-- The per-cell group returned by `#createTextMeshes`: it copies the
cell's jittered position and its rotation (stored as rational multiples
of pi), and holds the front and back sub-groups as its children. -/
structure CellGroup where
  position : ℚ × ℚ × ℚ
  euler : ℚ × ℚ × ℚ
  children : List SubGroup
deriving DecidableEq

/-- `#createTextMeshes` (src/index.js:205-222) for one cell: build (or
clone) the word meshes, sync them, lay them out, and assemble the group
with its front sub-group at `(-rectWidth/2, rectWidth/2, 0.001)` and its
back sub-group at `(rectWidth/2, rectWidth/2, -0.001)`, turned by pi
around Y.  The JavaScript interleaves the per-cell promise chains; the
model serializes cells in order, which produces the same final heap,
cache and groups because each mesh id is touched by exactly one cell. -/
def createTextMeshes (opts : Options) (measure : String → Option RenderInfo)
    (pos : ℚ × ℚ × ℚ) (euler : ℚ × ℚ × ℚ) (s : GenState) :
    GenState × CellGroup × List ℕ :=
  let g := genWords opts s (wordsOf opts.text)
  let h2 := syncMeshes measure g.1.heap g.2
  let pairs := g.2.filterMap fun id => (heapGet h2 id).map fun d => (id, d)
  let L := layoutTextMeshes opts pairs
  let acc := applyPlacements { g.1 with heap := h2 } L.placed
  (acc.gen,
    { position := pos, euler := euler,
      children :=
        [{ position := (-opts.rectWidth * (1/2), opts.rectWidth * (1/2), 1/1000),
           rotatedPiY := false, children := acc.front },
         { position := (opts.rectWidth * (1/2), opts.rectWidth * (1/2), -(1/1000)),
           rotatedPiY := true, children := acc.back }] },
    acc.inter)

/-- The `(x, y, z)` triples visited by the nested loops of
`#createCubeOfPlanes` (src/index.js:178-180), in loop order. -/
def cellTriples (G : ℕ) : List (ℕ × ℕ × ℕ) :=
  (List.range G).flatMap fun x =>
    (List.range G).flatMap fun y =>
      (List.range G).map fun z => (x, y, z)

/-- The running `instanceIndex` (src/index.js:175,187) at the iteration
visiting `(x, y, z)`: the number of previously visited triples. -/
def flatIdx (G x y z : ℕ) : ℕ := (x * G + y) * G + z

/-- One `setMatrixAt` call (src/index.js:187): instance slot, jittered
position and the Euler rotation, whose three angles are stored as
rational multiples of pi. -/
structure MatrixCall where
  index : ℕ
  position : ℚ × ℚ × ℚ
  euler : ℚ × ℚ × ℚ
deriving DecidableEq

/-- The matrix written for cell `(x, y, z)` (src/index.js:181-187).
`rand` is the stream of `Math.random()` results in call order: the loop
body is the only caller, drawing the jitter first and the angle second,
so iteration `k` consumes samples `2k` and `2k+1`.  The position offset
is `rand * cellSize * 0.5`; the rotation angle `rand * PI * 2` is stored
as the multiple `rand * 2` of pi, the same on all three axes. -/
def mkMatrixCall (opts : Options) (rand : ℕ → ℚ) (t : ℕ × ℕ × ℕ) :
    MatrixCall :=
  let G := opts.gridSize
  let cellSize := opts.rectWidth + opts.gridOffset
  let k := flatIdx G t.1 t.2.1 t.2.2
  let off := rand (2 * k) * cellSize * (1/2)
  let rc := rand (2 * k + 1) * 2
  { index := k,
    position := (t.1 * cellSize + off, t.2.1 * cellSize + off,
      t.2.2 * cellSize + off),
    euler := (rc, rc, rc) }

/-- Process the listed cells in loop order: emit each cell's matrix call
and build its text group, threading the generation state. -/
def runCells (opts : Options) (measure : String → Option RenderInfo)
    (rand : ℕ → ℚ) (s : GenState) :
    List (ℕ × ℕ × ℕ) → GenState × List MatrixCall × List CellGroup × List ℕ
  | [] => (s, [], [], [])
  | t :: ts =>
    let call := mkMatrixCall opts rand t
    let cell := createTextMeshes opts measure call.position call.euler s
    let rest := runCells opts measure rand cell.1 ts
    (rest.1, call :: rest.2.1, cell.2.1 :: rest.2.2.1,
      cell.2.2 ++ rest.2.2.2)

/-- The plane `InstancedMesh` (src/index.js:171-173), modelled as a
textless heap object: only the truthiness of its absent `.text` and its
membership in the interactable registry matter to the program. -/
def planeMeshData (opts : Options) : MeshData :=
  { text := "", fontSize := 0, font := "", maxWidth := 0,
    color := opts.rectBackgroundColor, position := (0, 0, 0),
    textRenderInfo := none }

/-- Result of `#createCubeOfPlanes`: the instance matrices, the per-cell
text groups, the final generation state and the interactable registry
(the plane batch first — pushed at src/index.js:199 before any async
layout runs — then every placed front/back text mesh). -/
structure Assembly where
  matrixCalls : List MatrixCall
  groups : List CellGroup
  gen : GenState
  interactableMeshes : List ℕ
deriving DecidableEq

/-- `#createCubeOfPlanes` (src/index.js:168-203): allocate the plane
batch (id 0), visit all `gridSize³` cells, and collect the registry. -/
def createCubeOfPlanes (opts : Options)
    (measure : String → Option RenderInfo) (rand : ℕ → ℚ) : Assembly :=
  let s0 : GenState :=
    { heap := [(0, planeMeshData opts)], nextId := 1, cache := [] }
  let r := runCells opts measure rand s0 (cellTriples opts.gridSize)
  { matrixCalls := r.2.1, groups := r.2.2.1, gen := r.1,
    interactableMeshes := 0 :: r.2.2.2 }

/-- State of the hover-highlight interaction loop: the mesh heap (colors
live on the meshes), the `#highlightedTextMesh` reference, the canvas
cursor style, and the log of `sync()` re-rasterization calls. -/
structure InteractState where
  heap : Heap
  highlighted : Option ℕ
  cursor : String
  syncLog : List ℕ
deriving DecidableEq

/-- `#resetHighlight` (src/index.js:152-158): if the highlighted
reference has a truthy `.text`, restore its default color and resync it;
in every case reset the cursor style. -/
def resetHighlight (opts : Options) (s : InteractState) : InteractState :=
  let s1 :=
    match s.highlighted with
    | some id =>
      match heapGet s.heap id with
      | some d =>
        if d.text ≠ "" then
          { s with
              heap := heapSet s.heap id { d with color := opts.textColor },
              syncLog := s.syncLog ++ [id] }
        else s
      | none => s
    | none => s
  { s1 with cursor := "auto" }

/-- `#applyHighlight` (src/index.js:160-166): if the target has a truthy
`.text`, give it the highlight color, resync it and show the pointer
cursor; otherwise do nothing. -/
def applyHighlight (opts : Options) (s : InteractState)
    (target : Option ℕ) : InteractState :=
  match target with
  | some id =>
    match heapGet s.heap id with
    | some d =>
      if d.text ≠ "" then
        { s with
          heap := heapSet s.heap id { d with color := opts.highlightedTextColor },
          syncLog := s.syncLog ++ [id], cursor := "pointer" }
      else s
    | none => s
  | none => s

/-- `#processIntersections` (src/index.js:136-150) given the nearest
raycast hit: skip everything when the hit equals the highlighted
reference, otherwise reset, apply, and store the new reference. -/
def processIntersections (opts : Options) (s : InteractState)
    (hovered : Option ℕ) : InteractState :=
  if s.highlighted = hovered then s
  else
    { applyHighlight opts (resetHighlight opts s) hovered with
      highlighted := hovered }

/-- The observable micro-states of one frame of `#processIntersections`:
the state on entry, the state after `#resetHighlight`, and the final
state after `#applyHighlight` and the reference update.  When the hit is
unchanged the frame has no intermediate states. -/
def microTrace (opts : Options) (s : InteractState) (hovered : Option ℕ) :
    List InteractState :=
  if s.highlighted = hovered then [s]
  else
    [s, resetHighlight opts s,
      { applyHighlight opts (resetHighlight opts s) hovered with
        highlighted := hovered }]

/-- Run the interaction loop over a sequence of per-frame raycast
results. -/
def runProcess (opts : Options) (s : InteractState)
    (hits : List (Option ℕ)) : InteractState :=
  hits.foldl (processIntersections opts) s

/-- All micro-states observed while running the interaction loop. -/
def runMicroStates (opts : Options) (s : InteractState) :
    List (Option ℕ) → List InteractState
  | [] => [s]
  | h :: t =>
    microTrace opts s h ++ runMicroStates opts (processIntersections opts s h) t

/-- Colors are consistent with the highlight reference: any mesh carrying
the highlight color is the currently highlighted one and has a renderable
word. -/
def HighlightInv (opts : Options) (s : InteractState) : Prop :=
  ∀ id d, heapGet s.heap id = some d →
    d.color = opts.highlightedTextColor → s.highlighted = some id ∧ d.text ≠ ""

/-- No two distinct meshes carry the highlight color at the same time. -/
def AtMostOneHighlighted (opts : Options) (s : InteractState) : Prop :=
  ∀ i j di dj, heapGet s.heap i = some di → heapGet s.heap j = some dj →
    di.color = opts.highlightedTextColor →
    dj.color = opts.highlightedTextColor → i = j

/-- Concrete options for counterexamples and witnesses: bound width 1,
zero line height (`fontSize * lineHeight = 0`), no space advance. -/
def optsA : Options :=
  { gridSize := 1, gridOffset := 0, rectWidth := 1,
    rectBackgroundColor := "#ffffff", textColor := "#121212",
    highlightedTextColor := "#ff0000", fontSize := 0, lineHeight := 0,
    spaceWidth := 0, fontUrl := "", text := "w" }

/-- Concrete options whose line height (2) exceeds the bound width (1),
so the very first line already fails the vertical check. -/
def optsB : Options :=
  { gridSize := 1, gridOffset := 0, rectWidth := 1,
    rectBackgroundColor := "#ffffff", textColor := "#121212",
    highlightedTextColor := "#ff0000", fontSize := 2, lineHeight := 1,
    spaceWidth := 0, fontUrl := "", text := "Hi" }

/-- A word mesh measured wider (2) than the bound width of `optsA` (1). -/
def meshWide : MeshData :=
  { text := "w", fontSize := 0, font := "", maxWidth := 1,
    color := "#121212", position := (0, 0, 0),
    textRenderInfo := some ⟨some [0, 0, 2, 0]⟩ }

/-- A word mesh measured narrower (1/2) than the bound width of
`optsA`. -/
def meshFit : MeshData :=
  { text := "a", fontSize := 0, font := "", maxWidth := 1,
    color := "#121212", position := (0, 0, 0),
    textRenderInfo := some ⟨some [0, 0, 1/2, 0]⟩ }

/-- A word mesh that was never measured: no render info at all. -/
def meshNoBounds : MeshData :=
  { text := "Hi", fontSize := 2, font := "", maxWidth := 1,
    color := "#121212", position := (0, 0, 0), textRenderInfo := none }

/-- An interaction state over the empty heap, nothing highlighted. -/
def stateEmpty : InteractState := ⟨[], none, "auto", []⟩

/-- A concrete shaping oracle: every word measures 1/2 wide. -/
def measureA : String → Option RenderInfo := fun _ => some ⟨some [0, 0, 1/2, 0]⟩

/-- A concrete random stream: always 0 (the minimum of `[0, 1)`). -/
def randA : ℕ → ℚ := fun _ => 0

/-- The scene built from `optsA` (grid size 1, text `"w"`). -/
def assemblyA : Assembly := createCubeOfPlanes optsA measureA randA

/-- The interaction state right after assembly: the assembled heap,
nothing highlighted yet. -/
def stateA : InteractState := ⟨assemblyA.gen.heap, none, "auto", []⟩

/-- An interaction state holding one text mesh, nothing highlighted. -/
def stateB : InteractState := ⟨[(1, meshFit)], none, "auto", []⟩

lemma layoutStep_stopped {W lh sw : ℚ} {s : LayoutState} {im : ℕ × MeshData}
    (hs : s.stopped = true) : layoutStep W lh sw s im = s := by
  simp [layoutStep, hs]

lemma foldl_layoutStep_stopped {W lh sw : ℚ} {s : LayoutState}
    (hs : s.stopped = true) :
    ∀ ms : List (ℕ × MeshData), ms.foldl (layoutStep W lh sw) s = s := by
  intro ms
  induction ms with
  | nil => rfl
  | cons m t ih => simpa [List.foldl_cons, layoutStep_stopped hs] using ih

/-- Fold invariant on placements: a predicate that holds for every old
placement and for any placement a step can append (a placement is only
appended when the step is live and the vertical check passes) keeps
holding over the whole layout fold. -/
lemma layout_placed_inv (W lh sw : ℚ)
    (P : (ℕ × MeshData) × ℚ × ℚ → Prop) :
    ∀ (ms : List (ℕ × MeshData)) (s : LayoutState),
      (∀ im ∈ ms, ∀ s' : LayoutState, s'.stopped = false →
        ¬((wrapCursor W lh s'.x s'.y (blockWidth im.2)).2 - lh < -W) →
        P (im, wrapCursor W lh s'.x s'.y (blockWidth im.2))) →
      (∀ q ∈ s.placed, P q) →
      ∀ q ∈ (ms.foldl (layoutStep W lh sw) s).placed, P q := by
  intro ms
  induction ms with
  | nil => intro s _ hs; simpa using hs
  | cons m t ih =>
    intro s hm hs
    rw [List.foldl_cons]
    by_cases hstop : s.stopped = true
    · rw [layoutStep_stopped hstop]
      exact ih s (fun im him => hm im (List.mem_cons_of_mem m him)) hs
    · have hstop' : s.stopped = false := Bool.eq_false_iff.mpr hstop
      apply ih (layoutStep W lh sw s m)
        (fun im him => hm im (List.mem_cons_of_mem m him))
      intro q hq
      simp only [layoutStep, hstop', Bool.false_eq_true, if_false] at hq
      by_cases hbrk :
          (wrapCursor W lh s.x s.y (blockWidth m.2)).2 - lh < -W
      · rw [if_pos hbrk] at hq
        exact hs q hq
      · rw [if_neg hbrk] at hq
        simp only [List.mem_append, List.mem_singleton] at hq
        rcases hq with hq | hq
        · exact hs q hq
        · subst hq
          exact hm m (List.mem_cons_self m t) s hstop' hbrk

/-- Once the vertical `break` has fired, the remaining fold is inert:
no further wrapping, placement or cursor movement happens. -/
lemma layout_prefix (W lh sw : ℚ) :
    ∀ (ms : List (ℕ × MeshData)) (s : LayoutState), s.stopped = false →
      ∃ k, ((ms.foldl (layoutStep W lh sw) s).placed).map (fun q => q.1)
        = (s.placed.map fun q => q.1) ++ ms.take k := by
  intro ms
  induction ms with
  | nil => intro s _; exact ⟨0, by simp⟩
  | cons m t ih =>
    intro s hstop
    rw [List.foldl_cons]
    simp only [layoutStep, hstop, Bool.false_eq_true, if_false]
    by_cases hbrk : (wrapCursor W lh s.x s.y (blockWidth m.2)).2 - lh < -W
    · rw [if_pos hbrk]
      rw [foldl_layoutStep_stopped rfl]
      exact ⟨0, by simp⟩
    · rw [if_neg hbrk]
      obtain ⟨k, hk⟩ := ih
        { x := (wrapCursor W lh s.x s.y (blockWidth m.2)).1 + blockWidth m.2 + sw,
          y := (wrapCursor W lh s.x s.y (blockWidth m.2)).2, stopped := false,
          placed := s.placed ++ [(m, (wrapCursor W lh s.x s.y (blockWidth m.2)).1,
            (wrapCursor W lh s.x s.y (blockWidth m.2)).2)] } rfl
      refine ⟨k + 1, ?_⟩
      rw [hk]
      simp [List.take_succ_cons]

/-- The word mesh carries no measured bounds: either no render info at
all, or render info without a bounds array. -/
def hasNoBounds (d : MeshData) : Prop :=
  d.textRenderInfo = none ∨ ∃ ri, d.textRenderInfo = some ri ∧ ri.blockBounds = none

lemma blockWidth_of_hasNoBounds {d : MeshData} (h : hasNoBounds d) :
    blockWidth d = 0 := by
  rcases h with h | ⟨ri, h, hb⟩
  · simp [blockWidth, h]
  · simp [blockWidth, h, hb]

/-- C3, corrected claim: provided every word's measured width is at most
the bound width, the line-wrapping layout places every word at a starting
`x` with `x ≤ rectWidth - width`, evaluated after any wrap. -/
theorem c3_layout_fits_width (opts : Options) (ms : List (ℕ × MeshData))
    (hw : ∀ im ∈ ms, blockWidth im.2 ≤ opts.rectWidth) :
    ∀ q ∈ (layoutTextMeshes opts ms).placed,
      q.2.1 ≤ opts.rectWidth - blockWidth q.1.2 := by
  refine layout_placed_inv opts.rectWidth (opts.fontSize * opts.lineHeight)
    opts.spaceWidth (fun q => q.2.1 ≤ opts.rectWidth - blockWidth q.1.2) ms
    ⟨0, 0, false, []⟩ ?_ (by simp)
  intro im him s' _ _
  show (wrapCursor opts.rectWidth (opts.fontSize * opts.lineHeight)
      s'.x s'.y (blockWidth im.2)).1 ≤ opts.rectWidth - blockWidth im.2
  unfold wrapCursor
  split_ifs with h
  · simpa using sub_nonneg.mpr (hw im him)
  · push_neg at h
    simp only
    linarith

/-- C3, counterexample to the claim as stated: with bound width 1 and a
single word of measured width 2, the word wraps, is placed at `x = 0`,
and `0 ≤ 1 - 2` is false. -/
theorem c3_counterexample :
    ¬ ∀ q ∈ (layoutTextMeshes optsA [(0, meshWide)]).placed,
        q.2.1 ≤ optsA.rectWidth - blockWidth q.1.2 := by
  intro h
  have hq := h ((0, meshWide), 0, 0)
    (by norm_num [layoutTextMeshes, layoutStep, wrapCursor, blockWidth,
      optsA, meshWide])
  norm_num [optsA, blockWidth, meshWide] at hq

/-- Witness for `c3_layout_fits_width` at a concrete input. -/
theorem c3_witness :
    (∀ im ∈ [((0 : ℕ), meshFit)], blockWidth im.2 ≤ optsA.rectWidth)
    ∧ ∀ q ∈ (layoutTextMeshes optsA [(0, meshFit)]).placed,
        q.2.1 ≤ optsA.rectWidth - blockWidth q.1.2 :=
  ⟨by norm_num [blockWidth, meshFit, optsA],
    c3_layout_fits_width optsA [(0, meshFit)]
      (by norm_num [blockWidth, meshFit, optsA])⟩

/-- C4: every placed word satisfies `y - lineHeight ≥ -rectWidth`; the
placed words form a prefix of the input (a failing word and everything
after it are dropped); and once the stop flag is set the layout loop
does nothing further (no wrap, no placement, no cursor change). -/
theorem c4_vertical_bound_and_truncation (opts : Options)
    (ms : List (ℕ × MeshData)) :
    (∀ q ∈ (layoutTextMeshes opts ms).placed,
        -opts.rectWidth ≤ q.2.2 - opts.fontSize * opts.lineHeight)
    ∧ (∃ k, ((layoutTextMeshes opts ms).placed).map (fun q => q.1) = ms.take k)
    ∧ ∀ (s : LayoutState) (rest : List (ℕ × MeshData)), s.stopped = true →
        rest.foldl (layoutStep opts.rectWidth
          (opts.fontSize * opts.lineHeight) opts.spaceWidth) s = s := by
  refine ⟨?_, ?_, ?_⟩
  · refine layout_placed_inv opts.rectWidth (opts.fontSize * opts.lineHeight)
      opts.spaceWidth
      (fun q => -opts.rectWidth ≤ q.2.2 - opts.fontSize * opts.lineHeight) ms
      ⟨0, 0, false, []⟩ ?_ (by simp)
    intro im _ s' _ hbrk
    exact not_lt.mp hbrk
  · simpa using layout_prefix opts.rectWidth (opts.fontSize * opts.lineHeight)
      opts.spaceWidth ms ⟨0, 0, false, []⟩ rfl
  · intro s rest hs
    exact foldl_layoutStep_stopped hs rest

/-- C10, corrected claim: a word mesh with no measured bounds gets width
`0`; provided the vertical check passes for it, it is placed at the
(post-wrap) cursor and the `x` cursor advances by exactly the space
width. -/
theorem c10_missing_bounds_placement (W lh sw : ℚ) (s : LayoutState)
    (im : ℕ × MeshData) (hstop : s.stopped = false) (hnb : hasNoBounds im.2)
    (hfit : ¬((wrapCursor W lh s.x s.y 0).2 - lh < -W)) :
    blockWidth im.2 = 0
    ∧ (layoutStep W lh sw s im).placed
        = s.placed ++ [(im, (wrapCursor W lh s.x s.y 0).1,
            (wrapCursor W lh s.x s.y 0).2)]
    ∧ (layoutStep W lh sw s im).x = (wrapCursor W lh s.x s.y 0).1 + sw
    ∧ (layoutStep W lh sw s im).y = (wrapCursor W lh s.x s.y 0).2
    ∧ (layoutStep W lh sw s im).stopped = false := by
  have hw := blockWidth_of_hasNoBounds hnb
  refine ⟨hw, ?_, ?_, ?_, ?_⟩ <;>
    simp [layoutStep, hstop, hw, hfit]

/-- C10, counterexample to the claim as stated: a mesh without bounds is
*not* always placed — with line height exceeding the box height the
vertical check fails and the mesh is dropped. -/
theorem c10_counterexample :
    meshNoBounds.textRenderInfo = none
    ∧ (layoutTextMeshes optsB [(0, meshNoBounds)]).placed = [] :=
  ⟨rfl, by norm_num [layoutTextMeshes, layoutStep, wrapCursor, blockWidth,
    optsB, meshNoBounds]⟩

/-- Witness for `c10_missing_bounds_placement` at a concrete input. -/
theorem c10_witness :
    (⟨0, 0, false, []⟩ : LayoutState).stopped = false
    ∧ hasNoBounds meshNoBounds
    ∧ ¬((wrapCursor 1 0 0 0 0).2 - 0 < -(1 : ℚ))
    ∧ (blockWidth (0, meshNoBounds).2 = 0
      ∧ (layoutStep 1 0 (1/20) ⟨0, 0, false, []⟩ (0, meshNoBounds)).placed
          = (⟨0, 0, false, []⟩ : LayoutState).placed
            ++ [(((0 : ℕ), meshNoBounds), (wrapCursor 1 0 0 0 0).1,
                (wrapCursor 1 0 0 0 0).2)]
      ∧ (layoutStep 1 0 (1/20) ⟨0, 0, false, []⟩ (0, meshNoBounds)).x
          = (wrapCursor 1 0 0 0 0).1 + 1/20
      ∧ (layoutStep 1 0 (1/20) ⟨0, 0, false, []⟩ (0, meshNoBounds)).y
          = (wrapCursor 1 0 0 0 0).2
      ∧ (layoutStep 1 0 (1/20) ⟨0, 0, false, []⟩ (0, meshNoBounds)).stopped
          = false) :=
  ⟨rfl, Or.inl rfl, by norm_num [wrapCursor],
    c10_missing_bounds_placement 1 0 (1/20) ⟨0, 0, false, []⟩
      (0, meshNoBounds) rfl (Or.inl rfl) (by norm_num [wrapCursor])⟩

lemma heapGet_heapSet_self : ∀ (h : Heap) (i : ℕ) (v d : MeshData),
    heapGet h i = some d → heapGet (heapSet h i v) i = some v := by
  intro h
  induction h with
  | nil => intro i v d hd; simp [heapGet] at hd
  | cons p t ih =>
    intro i v d hd
    obtain ⟨k, w⟩ := p
    by_cases hik : i = k
    · subst hik; simp [heapSet, heapGet]
    · simp only [heapGet, hik, if_false] at hd
      simp [heapSet, heapGet, hik]
      exact ih i v d hd

lemma heapGet_heapSet_ne : ∀ (h : Heap) (i j : ℕ) (v : MeshData), j ≠ i →
    heapGet (heapSet h i v) j = heapGet h j := by
  intro h
  induction h with
  | nil => intro i j v _; simp [heapSet]
  | cons p t ih =>
    intro i j v hne
    obtain ⟨k, w⟩ := p
    by_cases hik : i = k
    · subst hik
      simp [heapSet, heapGet, hne]
    · simp [heapSet, heapGet, hik]
      by_cases hjk : j = k
      · simp [hjk, heapGet]
      · simp [hjk, heapGet]
        exact ih i j v hne

lemma heapGet_append_left : ∀ (h h2 : Heap) (i : ℕ) (d : MeshData),
    heapGet h i = some d → heapGet (h ++ h2) i = some d := by
  intro h
  induction h with
  | nil => intro h2 i d hd; simp [heapGet] at hd
  | cons p t ih =>
    intro h2 i d hd
    obtain ⟨k, w⟩ := p
    by_cases hik : i = k
    · simp only [heapGet, hik, if_true] at hd
      simpa [heapGet, hik] using hd
    · simp only [heapGet, hik, if_false] at hd
      simpa [heapGet, hik] using ih h2 i d hd

lemma heapGet_append_fresh : ∀ (h : Heap) (n : ℕ) (v : MeshData),
    (∀ p ∈ h, p.1 < n) → heapGet (h ++ [(n, v)]) n = some v := by
  intro h
  induction h with
  | nil => intro n v _; simp [heapGet]
  | cons p t ih =>
    intro n v hwf
    obtain ⟨k, w⟩ := p
    have hk : k < n := by simpa using hwf (k, w) (List.mem_cons_self _ _)
    have hnk : ¬ n = k := by omega
    simpa [heapGet, hnk] using ih n v (fun q hq => hwf q (List.mem_cons_of_mem _ hq))

lemma processIntersections_self {opts : Options} {s : InteractState}
    {h : Option ℕ} (hs : s.highlighted = h) :
    processIntersections opts s h = s := by
  simp [processIntersections, hs]

/-- C6: the hover transition is idempotent.  When the nearest hit equals
the current highlighted reference the frame is a strict no-op (same heap
colors, same cursor, same resync log, same reference), and running the
transition twice on the same raycast result equals running it once. -/
theorem c6_hover_transition_idempotent :
    (∀ (opts : Options) (s : InteractState) (h : Option ℕ),
        s.highlighted = h → processIntersections opts s h = s)
    ∧ ∀ (opts : Options) (s : InteractState) (h : Option ℕ),
        processIntersections opts (processIntersections opts s h) h
          = processIntersections opts s h := by
  refine ⟨fun opts s h hs => processIntersections_self hs,
    fun opts s h => ?_⟩
  by_cases hs : s.highlighted = h
  · rw [processIntersections_self hs, processIntersections_self hs]
  · exact processIntersections_self (by simp [processIntersections, hs])

/-- Witness for `c6_hover_transition_idempotent` at a concrete state. -/
theorem c6_witness :
    stateEmpty.highlighted = none
    ∧ processIntersections optsA stateEmpty none = stateEmpty :=
  ⟨rfl, c6_hover_transition_idempotent.1 optsA stateEmpty none rfl⟩

/-- C2 (amended): in every state of the interaction loop reachable from a
state with no (or a registered) highlighted reference, under raycast
results drawn from the interactable registry, the highlighted reference
is a member of the registry whenever it is non-null.  (The text-payload
half of the original claim is refuted by `c2_counterexample`.) -/
theorem c2_highlighted_mesh_in_registry (opts : Options) (registry : List ℕ) :
    ∀ (hits : List (Option ℕ)) (s0 : InteractState),
      (∀ id, s0.highlighted = some id → id ∈ registry) →
      (∀ h ∈ hits, ∀ id, h = some id → id ∈ registry) →
      ∀ id, (runProcess opts s0 hits).highlighted = some id → id ∈ registry := by
  intro hits
  induction hits with
  | nil => intro s0 h0 _; simpa [runProcess] using h0
  | cons h t ih =>
    intro s0 h0 hhits
    have hstep : ∀ id,
        (processIntersections opts s0 h).highlighted = some id →
        id ∈ registry := by
      intro id hid
      by_cases hs : s0.highlighted = h
      · exact h0 id (by simpa [processIntersections, hs] using hid)
      · have hh : h = some id := by
          simpa [processIntersections, hs] using hid
        exact hhits h (List.mem_cons_self h t) id hh
    simpa [runProcess] using
      ih (processIntersections opts s0 h) hstep
        (fun h' hh' => hhits h' (List.mem_cons_of_mem h hh'))

/-- Witness for `c2_highlighted_mesh_in_registry` at a concrete run. -/
theorem c2_witness :
    (∀ id, stateEmpty.highlighted = some id → id ∈ [0])
    ∧ (∀ h ∈ [some 0], ∀ id : ℕ, h = some id → id ∈ [0])
    ∧ ∀ id, (runProcess optsA stateEmpty [some 0]).highlighted = some id →
        id ∈ [0] :=
  ⟨by simp [stateEmpty], by simp,
    c2_highlighted_mesh_in_registry optsA [0] [some 0] stateEmpty
      (by simp [stateEmpty]) (by simp)⟩

/-- C2, counterexample to the claim as stated: the plane batch is in the
registry; hovering it is a legitimate raycast outcome and makes it the
highlighted reference, yet it carries no renderable text payload. -/
theorem c2_counterexample :
    (0 : ℕ) ∈ assemblyA.interactableMeshes
    ∧ (processIntersections optsA stateA (some 0)).highlighted = some 0
    ∧ heapGet (processIntersections optsA stateA (some 0)).heap 0
        = some (planeMeshData optsA)
    ∧ (planeMeshData optsA).text = "" := by
  refine ⟨?_, ?_, ?_, rfl⟩
  · norm_num [assemblyA, createCubeOfPlanes]
  · simp [processIntersections, stateA]
  · norm_num [processIntersections, stateA, resetHighlight, applyHighlight,
      assemblyA, createCubeOfPlanes, cellTriples, runCells, mkMatrixCall,
      flatIdx, createTextMeshes, genWords, genWord, lookupCache, newTextMesh,
      wordsOf, splitSpaces, syncMeshes, heapGet, heapSet, layoutTextMeshes,
      layoutStep, wrapCursor, blockWidth, applyPlacements,
      planeMeshData, optsA, measureA, randA, List.filterMap, Option.map]

lemma flatMap_range_affine : ∀ (n m a : ℕ),
    ((List.range n).flatMap fun i => (List.range m).map fun j => a + (m * i + j))
      = (List.range (n * m)).map fun j => a + j := by
  intro n
  induction n with
  | zero => intro m a; simp
  | succ n ih =>
    intro m a
    rw [List.range_succ, List.flatMap_append, ih]
    have h1 : (n + 1) * m = n * m + m := by ring
    rw [h1, List.range_add, List.map_append, List.map_map]
    simp only [List.flatMap_cons, List.flatMap_nil, List.append_nil]
    congr 1
    apply List.map_congr_left
    intro j _
    simp only [Function.comp_apply]
    ring

lemma cellTriples_map_flatIdx (G : ℕ) :
    (cellTriples G).map (fun t => flatIdx G t.1 t.2.1 t.2.2)
      = List.range (G * (G * G)) := by
  unfold cellTriples
  rw [List.map_flatMap]
  have inner : ∀ x : ℕ,
      ((((List.range G).flatMap fun y => (List.range G).map fun z => (x, y, z))).map
        fun t => flatIdx G t.1 t.2.1 t.2.2)
      = (List.range (G * G)).map fun w => G * G * x + w := by
    intro x
    rw [List.map_flatMap]
    have h2 : ∀ y : ℕ,
        ((((List.range G).map fun z => (x, y, z))).map
          fun t => flatIdx G t.1 t.2.1 t.2.2)
        = (List.range G).map fun z => G * G * x + (G * y + z) := by
      intro y
      rw [List.map_map]
      apply List.map_congr_left
      intro z _
      simp only [Function.comp_apply, flatIdx]
      ring
    simp only [h2]
    exact flatMap_range_affine G G (G * G * x)
  simp only [inner]
  have h0 := flatMap_range_affine G (G * G) 0
  simp only [Nat.zero_add] at h0
  rw [h0]
  simp

lemma mem_cellTriples {G x y z : ℕ} :
    (x, y, z) ∈ cellTriples G ↔ x < G ∧ y < G ∧ z < G := by
  simp only [cellTriples, List.mem_flatMap, List.mem_map, List.mem_range]
  constructor
  · rintro ⟨a, ha, b, hb, c, hc, h⟩
    obtain ⟨h1, h2, h3⟩ : a = x ∧ b = y ∧ c = z := by
      simpa [Prod.ext_iff] using h
    subst h1; subst h2; subst h3
    exact ⟨ha, hb, hc⟩
  · rintro ⟨hx, hy, hz⟩
    exact ⟨x, hx, y, hy, z, hz, rfl⟩

lemma runCells_calls (opts : Options) (measure : String → Option RenderInfo)
    (rand : ℕ → ℚ) :
    ∀ (ts : List (ℕ × ℕ × ℕ)) (s : GenState),
      (runCells opts measure rand s ts).2.1 = ts.map (mkMatrixCall opts rand) := by
  intro ts
  induction ts with
  | nil => intro s; rfl
  | cons t ts ih =>
    intro s
    simp only [runCells, List.map_cons]
    rw [ih]

lemma runCells_groups_length (opts : Options)
    (measure : String → Option RenderInfo) (rand : ℕ → ℚ) :
    ∀ (ts : List (ℕ × ℕ × ℕ)) (s : GenState),
      (runCells opts measure rand s ts).2.2.1.length = ts.length := by
  intro ts
  induction ts with
  | nil => intro s; rfl
  | cons t ts ih =>
    intro s
    simp only [runCells, List.length_cons]
    rw [ih]

lemma createTextMeshes_children (opts : Options)
    (measure : String → Option RenderInfo) (pos euler : ℚ × ℚ × ℚ)
    (s : GenState) :
    ∃ fr bk, (createTextMeshes opts measure pos euler s).2.1.children = [fr, bk]
      ∧ fr.position = (-opts.rectWidth * (1/2), opts.rectWidth * (1/2), 1/1000)
      ∧ fr.rotatedPiY = false
      ∧ bk.position = (opts.rectWidth * (1/2), opts.rectWidth * (1/2), -(1/1000))
      ∧ bk.rotatedPiY = true :=
  ⟨_, _, rfl, rfl, rfl, rfl, rfl⟩

lemma runCells_groups_children (opts : Options)
    (measure : String → Option RenderInfo) (rand : ℕ → ℚ) :
    ∀ (ts : List (ℕ × ℕ × ℕ)) (s : GenState),
      ∀ g ∈ (runCells opts measure rand s ts).2.2.1,
        ∃ fr bk, g.children = [fr, bk]
          ∧ fr.position = (-opts.rectWidth * (1/2), opts.rectWidth * (1/2), 1/1000)
          ∧ fr.rotatedPiY = false
          ∧ bk.position = (opts.rectWidth * (1/2), opts.rectWidth * (1/2), -(1/1000))
          ∧ bk.rotatedPiY = true := by
  intro ts
  induction ts with
  | nil => intro s g hg; simp [runCells] at hg
  | cons t ts ih =>
    intro s g hg
    simp only [runCells, List.mem_cons] at hg
    rcases hg with hg | hg
    · subst hg
      exact createTextMeshes_children opts measure _ _ s
    · exact ih _ g hg

/-- C1: scene assembly produces exactly `gridSize ^ 3` instance-matrix
writes whose slots are precisely `0, 1, ..., gridSize^3 - 1` (one per
`(x, y, z)` triple), and exactly `gridSize ^ 3` text groups, each holding
exactly one front sub-group and one back sub-group. -/
theorem c1_assembly_counts (opts : Options)
    (measure : String → Option RenderInfo) (rand : ℕ → ℚ) :
    (createCubeOfPlanes opts measure rand).matrixCalls.length = opts.gridSize ^ 3
    ∧ (createCubeOfPlanes opts measure rand).matrixCalls.map MatrixCall.index
        = List.range (opts.gridSize ^ 3)
    ∧ (createCubeOfPlanes opts measure rand).groups.length = opts.gridSize ^ 3
    ∧ ∀ g ∈ (createCubeOfPlanes opts measure rand).groups,
        ∃ fr bk, g.children = [fr, bk]
          ∧ fr.position = (-opts.rectWidth * (1/2), opts.rectWidth * (1/2), 1/1000)
          ∧ fr.rotatedPiY = false
          ∧ bk.position = (opts.rectWidth * (1/2), opts.rectWidth * (1/2), -(1/1000))
          ∧ bk.rotatedPiY = true := by
  have hpow : opts.gridSize ^ 3 = opts.gridSize * (opts.gridSize * opts.gridSize) := by
    ring
  have hcalls : (createCubeOfPlanes opts measure rand).matrixCalls
      = (cellTriples opts.gridSize).map (mkMatrixCall opts rand) := by
    unfold createCubeOfPlanes
    exact runCells_calls opts measure rand _ _
  have hindex : (createCubeOfPlanes opts measure rand).matrixCalls.map MatrixCall.index
      = List.range (opts.gridSize ^ 3) := by
    rw [hcalls, List.map_map, hpow, ← cellTriples_map_flatIdx opts.gridSize]
    apply List.map_congr_left
    intro t _
    rfl
  have hlen : (createCubeOfPlanes opts measure rand).matrixCalls.length
      = opts.gridSize ^ 3 := by
    have := congrArg List.length hindex
    simpa using this
  refine ⟨hlen, hindex, ?_, ?_⟩
  · have := congrArg List.length hcalls
    simp only [List.length_map] at this
    unfold createCubeOfPlanes
    rw [runCells_groups_length opts measure rand]
    have h2 := congrArg List.length hindex
    simp only [List.length_map, List.length_range] at h2
    rw [hcalls] at h2
    simpa using h2
  · intro g hg
    unfold createCubeOfPlanes at hg
    exact runCells_groups_children opts measure rand _ _ g hg

/-- C8: for every lattice cell `(x, y, z)` (with positive cell size
`c = rectWidth + gridOffset` and random samples in `[0, 1)`), the emitted
matrix has position `(x*c + j, y*c + j, z*c + j)` for a jitter
`j ∈ [0, c/2)`, and its rotation applies one angle `θ ∈ [0, 2π)` to all
three Euler axes (the stored Euler components are equal, and `θ` is the
stored rational multiple of π). -/
theorem c8_cell_transform (opts : Options)
    (measure : String → Option RenderInfo) (rand : ℕ → ℚ)
    (hr : ∀ n, 0 ≤ rand n ∧ rand n < 1)
    (hc : 0 < opts.rectWidth + opts.gridOffset)
    (x y z : ℕ) (hx : x < opts.gridSize) (hy : y < opts.gridSize)
    (hz : z < opts.gridSize) :
    ∃ call ∈ (createCubeOfPlanes opts measure rand).matrixCalls,
      call.index = flatIdx opts.gridSize x y z
      ∧ (∃ j : ℚ, 0 ≤ j ∧ j < (opts.rectWidth + opts.gridOffset) / 2
          ∧ call.position = (x * (opts.rectWidth + opts.gridOffset) + j,
              y * (opts.rectWidth + opts.gridOffset) + j,
              z * (opts.rectWidth + opts.gridOffset) + j))
      ∧ call.euler.2.1 = call.euler.1 ∧ call.euler.2.2 = call.euler.1
      ∧ ∃ θ : ℝ, 0 ≤ θ ∧ θ < 2 * Real.pi
          ∧ θ = (call.euler.1 : ℝ) * Real.pi := by
  have hcalls : (createCubeOfPlanes opts measure rand).matrixCalls
      = (cellTriples opts.gridSize).map (mkMatrixCall opts rand) := by
    unfold createCubeOfPlanes
    exact runCells_calls opts measure rand _ _
  refine ⟨mkMatrixCall opts rand (x, y, z), ?_, rfl, ?_, rfl, rfl, ?_⟩
  · rw [hcalls]
    exact List.mem_map_of_mem _ (mem_cellTriples.mpr ⟨hx, hy, hz⟩)
  · refine ⟨rand (2 * flatIdx opts.gridSize x y z)
        * (opts.rectWidth + opts.gridOffset) * (1/2), ?_, ?_, rfl⟩
    · have h0 := (hr (2 * flatIdx opts.gridSize x y z)).1
      positivity
    · have h1 := (hr (2 * flatIdx opts.gridSize x y z)).2
      have h2 : rand (2 * flatIdx opts.gridSize x y z)
            * (opts.rectWidth + opts.gridOffset)
          < 1 * (opts.rectWidth + opts.gridOffset) :=
        mul_lt_mul_of_pos_right h1 hc
      linarith
  · refine ⟨((rand (2 * flatIdx opts.gridSize x y z + 1) * 2 : ℚ) : ℝ)
        * Real.pi, ?_, ?_, rfl⟩
    · have h0 := (hr (2 * flatIdx opts.gridSize x y z + 1)).1
      have h0' : (0 : ℝ) ≤ ((rand (2 * flatIdx opts.gridSize x y z + 1) : ℚ) : ℝ) := by
        exact_mod_cast h0
      have : (0 : ℝ) ≤ ((rand (2 * flatIdx opts.gridSize x y z + 1) * 2 : ℚ) : ℝ) := by
        push_cast
        linarith
      exact mul_nonneg this Real.pi_pos.le
    · have h1 := (hr (2 * flatIdx opts.gridSize x y z + 1)).2
      have h1' : ((rand (2 * flatIdx opts.gridSize x y z + 1) : ℚ) : ℝ) < 1 := by
        exact_mod_cast h1
      have hlt : ((rand (2 * flatIdx opts.gridSize x y z + 1) * 2 : ℚ) : ℝ) < 2 := by
        push_cast
        linarith
      calc ((rand (2 * flatIdx opts.gridSize x y z + 1) * 2 : ℚ) : ℝ) * Real.pi
          < 2 * Real.pi := mul_lt_mul_of_pos_right hlt Real.pi_pos

/-- Witness for `c8_cell_transform` at the concrete scene `assemblyA`. -/
theorem c8_witness :
    (∀ n, 0 ≤ randA n ∧ randA n < 1)
    ∧ ((0 : ℚ) < optsA.rectWidth + optsA.gridOffset)
    ∧ (0 < optsA.gridSize)
    ∧ ∃ call ∈ (createCubeOfPlanes optsA measureA randA).matrixCalls,
        call.index = flatIdx optsA.gridSize 0 0 0
        ∧ (∃ j : ℚ, 0 ≤ j ∧ j < (optsA.rectWidth + optsA.gridOffset) / 2
            ∧ call.position = ((0 : ℕ) * (optsA.rectWidth + optsA.gridOffset) + j,
                (0 : ℕ) * (optsA.rectWidth + optsA.gridOffset) + j,
                (0 : ℕ) * (optsA.rectWidth + optsA.gridOffset) + j))
        ∧ call.euler.2.1 = call.euler.1 ∧ call.euler.2.2 = call.euler.1
        ∧ ∃ θ : ℝ, 0 ≤ θ ∧ θ < 2 * Real.pi
            ∧ θ = (call.euler.1 : ℝ) * Real.pi :=
  ⟨fun n => ⟨le_refl 0, by norm_num [randA]⟩,
    by norm_num [optsA],
    by norm_num [optsA],
    c8_cell_transform optsA measureA randA
      (fun n => ⟨le_refl 0, by norm_num [randA]⟩)
      (by norm_num [optsA]) 0 0 0
      (by norm_num [optsA]) (by norm_num [optsA]) (by norm_num [optsA])⟩

lemma lookupCache_eq_none_iff : ∀ (c : List (String × ℕ)) (w : String),
    lookupCache c w = none ↔ w ∉ c.map Prod.fst := by
  intro c
  induction c with
  | nil => intro w; simp [lookupCache]
  | cons p t ih =>
    intro w
    obtain ⟨k, v⟩ := p
    by_cases hwk : w = k
    · subst hwk; simp [lookupCache]
    · simp [lookupCache, hwk, ih]

lemma lookupCache_some_mem {c : List (String × ℕ)} {w : String} {id : ℕ}
    (h : lookupCache c w = some id) : w ∈ c.map Prod.fst := by
  by_contra hmem
  rw [← lookupCache_eq_none_iff] at hmem
  rw [h] at hmem
  exact Option.noConfusion hmem

lemma genWord_cache_hit {opts : Options} {s : GenState} {w : String} {id : ℕ}
    (h : lookupCache s.cache w = some id) :
    (genWord opts s w).1.cache = s.cache := by
  cases hh : heapGet s.heap id <;> simp [genWord, h, hh]

lemma genWord_cache_miss {opts : Options} {s : GenState} {w : String}
    (h : lookupCache s.cache w = none) :
    (genWord opts s w).1.cache = s.cache ++ [(w, s.nextId)]
    ∧ (genWord opts s w).2 = s.nextId := by
  simp [genWord, h]

lemma genWords_cache_mem (opts : Options) :
    ∀ (ws : List String) (s : GenState) (w' : String),
      w' ∈ (genWords opts s ws).1.cache.map Prod.fst
        ↔ w' ∈ s.cache.map Prod.fst ∨ w' ∈ ws := by
  intro ws
  induction ws with
  | nil => intro s w'; simp [genWords]
  | cons w t ih =>
    intro s w'
    have hstep : (genWords opts s (w :: t)).1 = (genWords opts (genWord opts s w).1 t).1 := by
      simp [genWords]
    rw [hstep, ih]
    cases hl : lookupCache s.cache w with
    | some id =>
      rw [genWord_cache_hit hl]
      have hw := lookupCache_some_mem hl
      simp only [List.mem_cons]
      constructor
      · rintro (h | h)
        · exact Or.inl h
        · exact Or.inr (Or.inr h)
      · rintro (h | h | h)
        · exact Or.inl h
        · subst h; exact Or.inl hw
        · exact Or.inr h
    | none =>
      rw [(genWord_cache_miss hl).1]
      simp only [List.map_append, List.mem_append, List.map_cons, List.map_nil,
        List.mem_singleton, List.mem_cons]
      tauto

lemma genWords_cache_nodup (opts : Options) :
    ∀ (ws : List String) (s : GenState),
      (s.cache.map Prod.fst).Nodup →
      ((genWords opts s ws).1.cache.map Prod.fst).Nodup := by
  intro ws
  induction ws with
  | nil => intro s hs; simpa [genWords] using hs
  | cons w t ih =>
    intro s hs
    have hstep : (genWords opts s (w :: t)).1 = (genWords opts (genWord opts s w).1 t).1 := by
      simp [genWords]
    rw [hstep]
    apply ih
    cases hl : lookupCache s.cache w with
    | some id => rw [genWord_cache_hit hl]; exact hs
    | none =>
      rw [(genWord_cache_miss hl).1]
      have hw : w ∉ s.cache.map Prod.fst := (lookupCache_eq_none_iff _ _).mp hl
      simp [List.nodup_append, hs, hw]

lemma applyPlacements_cache :
    ∀ (qs : List ((ℕ × MeshData) × ℚ × ℚ)) (s : GenState),
      (applyPlacements s qs).gen.cache = s.cache := by
  intro qs
  induction qs with
  | nil => intro s; rfl
  | cons q t ih =>
    intro s
    cases hh : heapGet s.heap q.1.1 with
    | some cur => simpa [applyPlacements, hh] using ih _
    | none => simpa [applyPlacements, hh] using ih s

lemma createTextMeshes_cache (opts : Options)
    (measure : String → Option RenderInfo) (pos euler : ℚ × ℚ × ℚ)
    (s : GenState) :
    (createTextMeshes opts measure pos euler s).1.cache
      = (genWords opts s (wordsOf opts.text)).1.cache := by
  unfold createTextMeshes
  exact applyPlacements_cache _ _

lemma runCells_cache_mem (opts : Options)
    (measure : String → Option RenderInfo) (rand : ℕ → ℚ) :
    ∀ (ts : List (ℕ × ℕ × ℕ)) (s : GenState), ts ≠ [] → ∀ w',
      w' ∈ (runCells opts measure rand s ts).1.cache.map Prod.fst
        ↔ w' ∈ s.cache.map Prod.fst ∨ w' ∈ wordsOf opts.text := by
  intro ts
  induction ts with
  | nil => intro s h; exact absurd rfl h
  | cons t ts ih =>
    intro s _ w'
    simp only [runCells]
    cases hts : ts with
    | nil =>
      simp only [runCells, createTextMeshes_cache]
      exact genWords_cache_mem opts _ s w'
    | cons t2 ts2 =>
      rw [← hts, ih _ (by simp [hts]), createTextMeshes_cache,
        genWords_cache_mem opts _ s w']
      tauto

lemma runCells_cache_nodup (opts : Options)
    (measure : String → Option RenderInfo) (rand : ℕ → ℚ) :
    ∀ (ts : List (ℕ × ℕ × ℕ)) (s : GenState),
      (s.cache.map Prod.fst).Nodup →
      ((runCells opts measure rand s ts).1.cache.map Prod.fst).Nodup := by
  intro ts
  induction ts with
  | nil => intro s hs; exact hs
  | cons t ts ih =>
    intro s hs
    simp only [runCells]
    apply ih
    rw [createTextMeshes_cache]
    exact genWords_cache_nodup opts _ s hs

lemma heapGet_mem : ∀ (h : Heap) (i : ℕ) (d : MeshData),
    heapGet h i = some d → (i, d) ∈ h := by
  intro h
  induction h with
  | nil => intro i d hd; simp [heapGet] at hd
  | cons p t ih =>
    intro i d hd
    obtain ⟨k, w⟩ := p
    by_cases hik : i = k
    · subst hik
      simp only [heapGet, if_true, eq_self_iff_true, Option.some.injEq] at hd
      subst hd
      exact List.mem_cons_self _ _
    · simp only [heapGet, hik, if_false] at hd
      exact List.mem_cons_of_mem _ (ih i d hd)

/-- C5: (i) after assembly of a non-empty grid, the glyph cache holds
exactly one entry per distinct word of the input text — its keys are
duplicate-free and are exactly the words — no matter how often a word
repeats across the `gridSize³` cells; (ii) on a word's first occurrence a
new mesh is built, returned and cached (the cache key maps to the very id
returned); (iii) on any later occurrence the cache is untouched and a
clone is returned: a fresh id, distinct from the cached one, carrying a
copy of the cached object's data. -/
theorem c5_glyph_cache_unique :
    (∀ (opts : Options) (measure : String → Option RenderInfo) (rand : ℕ → ℚ),
        1 ≤ opts.gridSize →
        ((createCubeOfPlanes opts measure rand).gen.cache.map Prod.fst).Nodup
        ∧ ∀ w, w ∈ (createCubeOfPlanes opts measure rand).gen.cache.map Prod.fst
            ↔ w ∈ wordsOf opts.text)
    ∧ (∀ (opts : Options) (s : GenState) (w : String),
        lookupCache s.cache w = none → (∀ p ∈ s.heap, p.1 < s.nextId) →
        (genWord opts s w).1.cache = s.cache ++ [(w, (genWord opts s w).2)]
        ∧ heapGet (genWord opts s w).1.heap (genWord opts s w).2
            = some (newTextMesh opts w))
    ∧ (∀ (opts : Options) (s : GenState) (w : String) (id : ℕ) (d : MeshData),
        lookupCache s.cache w = some id → heapGet s.heap id = some d →
        (∀ p ∈ s.heap, p.1 < s.nextId) →
        (genWord opts s w).1.cache = s.cache
        ∧ (genWord opts s w).2 ≠ id
        ∧ heapGet (genWord opts s w).1.heap (genWord opts s w).2 = some d) := by
  refine ⟨?_, ?_, ?_⟩
  · intro opts measure rand hG
    have hmem0 : ((0 : ℕ), (0 : ℕ), (0 : ℕ)) ∈ cellTriples opts.gridSize :=
      mem_cellTriples.mpr ⟨hG, hG, hG⟩
    have hne : cellTriples opts.gridSize ≠ [] := List.ne_nil_of_mem hmem0
    constructor
    · unfold createCubeOfPlanes
      exact runCells_cache_nodup opts measure rand _ _ (by simp)
    · intro w
      unfold createCubeOfPlanes
      rw [runCells_cache_mem opts measure rand _ _ hne w]
      simp
  · intro opts s w hl hwf
    obtain ⟨hc, hid⟩ := genWord_cache_miss hl
    have hh : (genWord opts s w).1.heap
        = s.heap ++ [(s.nextId, newTextMesh opts w)] := by
      simp [genWord, hl]
    refine ⟨by rw [hc, hid], ?_⟩
    rw [hh, hid]
    exact heapGet_append_fresh s.heap s.nextId _ hwf
  · intro opts s w id d hl hd hwf
    have hlt : id < s.nextId := by
      simpa using hwf (id, d) (heapGet_mem _ _ _ hd)
    have h1 : (genWord opts s w).1.heap = s.heap ++ [(s.nextId, d)] := by
      simp [genWord, hl, hd]
    have h2 : (genWord opts s w).2 = s.nextId := by
      simp [genWord, hl, hd]
    refine ⟨genWord_cache_hit hl, by rw [h2]; omega, ?_⟩
    rw [h1, h2]
    exact heapGet_append_fresh s.heap s.nextId d hwf

/-- Witness for `c5_glyph_cache_unique` at concrete inputs. -/
theorem c5_witness :
    (1 ≤ optsA.gridSize
      ∧ ((createCubeOfPlanes optsA measureA randA).gen.cache.map Prod.fst).Nodup
      ∧ ∀ w, w ∈ (createCubeOfPlanes optsA measureA randA).gen.cache.map Prod.fst
          ↔ w ∈ wordsOf optsA.text)
    ∧ (lookupCache (⟨[], 0, []⟩ : GenState).cache "w" = none
      ∧ (genWord optsA ⟨[], 0, []⟩ "w").1.cache
          = (⟨[], 0, []⟩ : GenState).cache
            ++ [("w", (genWord optsA ⟨[], 0, []⟩ "w").2)]
      ∧ heapGet (genWord optsA ⟨[], 0, []⟩ "w").1.heap
          (genWord optsA ⟨[], 0, []⟩ "w").2 = some (newTextMesh optsA "w"))
    ∧ (lookupCache [("w", 0)] "w" = some 0
      ∧ (genWord optsA ⟨[(0, newTextMesh optsA "w")], 1, [("w", 0)]⟩ "w").1.cache
          = [("w", 0)]
      ∧ (genWord optsA ⟨[(0, newTextMesh optsA "w")], 1, [("w", 0)]⟩ "w").2 ≠ 0
      ∧ heapGet (genWord optsA ⟨[(0, newTextMesh optsA "w")], 1, [("w", 0)]⟩ "w").1.heap
          (genWord optsA ⟨[(0, newTextMesh optsA "w")], 1, [("w", 0)]⟩ "w").2
          = some (newTextMesh optsA "w")) :=
  ⟨⟨by norm_num [optsA],
      c5_glyph_cache_unique.1 optsA measureA randA (by norm_num [optsA])⟩,
    ⟨rfl, c5_glyph_cache_unique.2.1 optsA ⟨[], 0, []⟩ "w" rfl (by simp)⟩,
    ⟨rfl, c5_glyph_cache_unique.2.2 optsA
      ⟨[(0, newTextMesh optsA "w")], 1, [("w", 0)]⟩ "w" 0 (newTextMesh optsA "w")
      rfl rfl (by simp)⟩⟩

lemma lookupCache_append_self : ∀ (c : List (String × ℕ)) (w : String) (id : ℕ),
    lookupCache c w = none → lookupCache (c ++ [(w, id)]) w = some id := by
  intro c
  induction c with
  | nil => intro w id _; simp [lookupCache]
  | cons p t ih =>
    intro w id hl
    obtain ⟨k, v⟩ := p
    by_cases hwk : w = k
    · subst hwk; simp [lookupCache] at hl
    · simp only [lookupCache, hwk, if_false] at hl
      simpa [lookupCache, hwk] using ih w id hl

lemma applyPlacements_get_preserved :
    ∀ (qs : List ((ℕ × MeshData) × ℚ × ℚ)) (s : GenState) (id : ℕ)
      (v : MeshData),
      heapGet s.heap id = some v → id ∉ qs.map (fun q => q.1.1) →
      heapGet (applyPlacements s qs).gen.heap id = some v := by
  intro qs
  induction qs with
  | nil => intro s id v hv _; exact hv
  | cons q t ih =>
    intro s id v hv hid
    simp only [List.map_cons, List.mem_cons, not_or] at hid
    obtain ⟨hne, hid'⟩ := hid
    cases hh : heapGet s.heap q.1.1 with
    | none =>
      simp only [applyPlacements, hh]
      exact ih s id v hv hid'
    | some cur =>
      simp only [applyPlacements, hh]
      apply ih _ id v _ hid'
      apply heapGet_append_left
      rw [heapGet_heapSet_ne _ _ _ _ hne]
      exact hv

/-- C9: (i) on a word's first occurrence the id stored in the cache is
the very id returned for placement — the cache entry and the scene mesh
are one object, not a clone; (ii) realizing the layout mutates that live
object: after `applyPlacements` the heap object under a placed id is the
input object with its position overwritten by the layout coordinates, and
the id is a child of the front group; (iii) highlighting mutates it too:
hovering a text mesh overwrites the live object's color with the
highlight color. -/
theorem c9_cache_entry_is_live_scene_object :
    (∀ (opts : Options) (s : GenState) (w : String),
        lookupCache s.cache w = none →
        lookupCache (genWord opts s w).1.cache w = some (genWord opts s w).2)
    ∧ (∀ (qs : List ((ℕ × MeshData) × ℚ × ℚ)) (s : GenState) (id : ℕ)
        (d cur : MeshData) (px py : ℚ),
        ((id, d), px, py) ∈ qs → (qs.map fun q => q.1.1).Nodup →
        heapGet s.heap id = some cur →
        heapGet (applyPlacements s qs).gen.heap id
            = some { cur with position := (px, py, 0) }
        ∧ id ∈ (applyPlacements s qs).front)
    ∧ (∀ (opts : Options) (s : InteractState) (id : ℕ) (d : MeshData),
        heapGet s.heap id = some d → d.text ≠ "" → s.highlighted ≠ some id →
        heapGet (processIntersections opts s (some id)).heap id
            = some { d with color := opts.highlightedTextColor }) := by
  refine ⟨?_, ?_, ?_⟩
  · intro opts s w hl
    obtain ⟨hc, hid⟩ := genWord_cache_miss hl
    rw [hc, hid]
    exact lookupCache_append_self s.cache w s.nextId hl
  · intro qs
    induction qs with
    | nil => intro s id d cur px py hmem; simp at hmem
    | cons q t ih =>
      intro s id d cur px py hmem hnd hget
      simp only [List.map_cons, List.nodup_cons] at hnd
      obtain ⟨hq1, hnd'⟩ := hnd
      rcases List.mem_cons.mp hmem with hq | hq
      · subst hq
        simp only at hq1 hget ⊢
        cases hh : heapGet s.heap id with
        | none => rw [hget] at hh; exact Option.noConfusion hh
        | some cur2 =>
          have hcur : cur = cur2 := by
            rw [hget] at hh
            exact Option.some.inj hh
          subst hcur
          simp only [applyPlacements, hh]
          constructor
          · apply applyPlacements_get_preserved t _ id _ _ hq1
            apply heapGet_append_left
            exact heapGet_heapSet_self s.heap id _ _ hh
          · exact List.mem_cons_self _ _
      · have hne : id ≠ q.1.1 := by
          intro h
          exact hq1 (h ▸ List.mem_map_of_mem (fun q => q.1.1) hq)
        cases hh : heapGet s.heap q.1.1 with
        | none =>
          simp only [applyPlacements, hh]
          exact ih s id d cur px py hq hnd' hget
        | some cur2 =>
          simp only [applyPlacements, hh]
          obtain ⟨ha, hb⟩ := ih
            ⟨heapSet s.heap q.1.1 { cur2 with position := (q.2.1, q.2.2, 0) }
              ++ [(s.nextId, { cur2 with position := (q.2.1, q.2.2, 0) })],
             s.nextId + 1, s.cache⟩ id d cur px py hq hnd'
            (heapGet_append_left _ _ _ _
              (by rw [heapGet_heapSet_ne _ _ _ _ hne]; exact hget))
          exact ⟨ha, List.mem_cons_of_mem _ hb⟩
  · intro opts s id d hd hdt hne
    have h1 : heapGet (resetHighlight opts s).heap id = some d := by
      cases hh : s.highlighted with
      | none => simpa [resetHighlight, hh] using hd
      | some old =>
        have hold : id ≠ old := by
          intro h
          exact hne (by rw [hh, h])
        cases hho : heapGet s.heap old with
        | none => simpa [resetHighlight, hh, hho] using hd
        | some dold =>
          by_cases ht : dold.text = ""
          · simpa [resetHighlight, hh, hho, ht] using hd
          · simp only [resetHighlight, hh, hho, ht, ne_eq,
              not_false_eq_true, if_true]
            rw [heapGet_heapSet_ne _ _ _ _ hold]
            exact hd
    have hproc : processIntersections opts s (some id)
        = { applyHighlight opts (resetHighlight opts s) (some id) with
            highlighted := some id } := by
      simp [processIntersections, hne]
    rw [hproc]
    simp only [applyHighlight, h1, hdt, ne_eq, not_false_eq_true, if_true]
    exact heapGet_heapSet_self _ _ _ _ h1

/-- Witness for `c9_cache_entry_is_live_scene_object` at concrete
inputs. -/
theorem c9_witness :
    (lookupCache (⟨[], 0, []⟩ : GenState).cache "w" = none
      ∧ lookupCache (genWord optsA ⟨[], 0, []⟩ "w").1.cache "w"
          = some (genWord optsA ⟨[], 0, []⟩ "w").2)
    ∧ ((((1 : ℕ), meshFit), (0 : ℚ), (0 : ℚ))
          ∈ [(((1 : ℕ), meshFit), (0 : ℚ), (0 : ℚ))]
      ∧ (([(((1 : ℕ), meshFit), (0 : ℚ), (0 : ℚ))]).map (fun q => q.1.1)).Nodup
      ∧ heapGet (⟨[(1, meshFit)], 2, []⟩ : GenState).heap 1 = some meshFit
      ∧ heapGet (applyPlacements ⟨[(1, meshFit)], 2, []⟩
            [(((1 : ℕ), meshFit), (0 : ℚ), (0 : ℚ))]).gen.heap 1
          = some { meshFit with position := (0, 0, 0) }
      ∧ 1 ∈ (applyPlacements ⟨[(1, meshFit)], 2, []⟩
            [(((1 : ℕ), meshFit), (0 : ℚ), (0 : ℚ))]).front)
    ∧ (heapGet stateB.heap 1 = some meshFit
      ∧ meshFit.text ≠ ""
      ∧ stateB.highlighted ≠ some 1
      ∧ heapGet (processIntersections optsA stateB (some 1)).heap 1
          = some { meshFit with color := optsA.highlightedTextColor }) :=
  ⟨⟨rfl, c9_cache_entry_is_live_scene_object.1 optsA ⟨[], 0, []⟩ "w" rfl⟩,
    ⟨List.mem_cons_self _ _, by simp, rfl,
      (c9_cache_entry_is_live_scene_object.2.1
        [(((1 : ℕ), meshFit), (0 : ℚ), (0 : ℚ))] ⟨[(1, meshFit)], 2, []⟩
        1 meshFit meshFit 0 0 (List.mem_cons_self _ _) (by simp) rfl).1,
      (c9_cache_entry_is_live_scene_object.2.1
        [(((1 : ℕ), meshFit), (0 : ℚ), (0 : ℚ))] ⟨[(1, meshFit)], 2, []⟩
        1 meshFit meshFit 0 0 (List.mem_cons_self _ _) (by simp) rfl).2⟩,
    ⟨rfl, by decide, by decide,
      c9_cache_entry_is_live_scene_object.2.2 optsA stateB 1 meshFit rfl
        (by decide) (by decide)⟩⟩

lemma inv_atMostOne {opts : Options} {s : InteractState}
    (hinv : HighlightInv opts s) : AtMostOneHighlighted opts s := by
  intro i j di dj hgi hgj hci hcj
  have h1 := (hinv i di hgi hci).1
  have h2 := (hinv j dj hgj hcj).1
  rw [h1] at h2
  exact Option.some.inj h2

/-- Right after `#resetHighlight`, no mesh at all carries the highlight
color: the old target (if any) was just restored, and no other mesh
carried it by the invariant. -/
lemma reset_no_highlight {opts : Options} {s : InteractState}
    (hc : opts.textColor ≠ opts.highlightedTextColor)
    (hinv : HighlightInv opts s) :
    ∀ id d, heapGet (resetHighlight opts s).heap id = some d →
      d.color ≠ opts.highlightedTextColor := by
  intro id d hd hcol
  cases hh : s.highlighted with
  | none =>
    have hd' : heapGet s.heap id = some d := by
      simpa [resetHighlight, hh] using hd
    have h1 := (hinv id d hd' hcol).1
    rw [hh] at h1
    exact Option.noConfusion h1
  | some old =>
    cases hho : heapGet s.heap old with
    | none =>
      have hd' : heapGet s.heap id = some d := by
        simpa [resetHighlight, hh, hho] using hd
      have h1 := (hinv id d hd' hcol).1
      rw [hh] at h1
      have hoi : old = id := Option.some.inj h1
      subst hoi
      rw [hho] at hd'
      exact Option.noConfusion hd'
    | some dold =>
      by_cases ht : dold.text = ""
      · have hd' : heapGet s.heap id = some d := by
          simpa [resetHighlight, hh, hho, ht] using hd
        have h1 := (hinv id d hd' hcol).1
        have h2 := (hinv id d hd' hcol).2
        rw [hh] at h1
        have hoi : old = id := Option.some.inj h1
        subst hoi
        rw [hho] at hd'
        have hdd : dold = d := Option.some.inj hd'
        rw [← hdd] at h2
        exact h2 ht
      · have hheap : (resetHighlight opts s).heap
            = heapSet s.heap old { dold with color := opts.textColor } := by
          simp [resetHighlight, hh, hho, ht]
        rw [hheap] at hd
        by_cases hio : id = old
        · subst hio
          rw [heapGet_heapSet_self s.heap id _ dold hho] at hd
          have hdd := Option.some.inj hd
          rw [← hdd] at hcol
          exact hc hcol
        · rw [heapGet_heapSet_ne _ _ _ _ hio] at hd
          have h1 := (hinv id d hd hcol).1
          rw [hh] at h1
          exact hio (Option.some.inj h1).symm

/-- After `#applyHighlight` on a state with no highlight-colored mesh,
the invariant holds for the new highlighted reference. -/
lemma apply_inv {opts : Options} {s1 : InteractState} {h : Option ℕ}
    (hroot : ∀ id d, heapGet s1.heap id = some d →
      d.color ≠ opts.highlightedTextColor) :
    HighlightInv opts { applyHighlight opts s1 h with highlighted := h } := by
  intro id d hd hcol
  cases h with
  | none =>
    simp only [applyHighlight] at hd
    exact absurd hcol (hroot id d hd)
  | some nid =>
    cases hg : heapGet s1.heap nid with
    | none =>
      simp only [applyHighlight, hg] at hd
      exact absurd hcol (hroot id d hd)
    | some dn =>
      by_cases ht : dn.text = ""
      · simp only [applyHighlight, hg, ht, ne_eq, not_true_eq_false,
          if_false] at hd
        exact absurd hcol (hroot id d hd)
      · have hheap : ({ applyHighlight opts s1 (some nid) with
              highlighted := some nid }).heap
            = heapSet s1.heap nid
                { dn with color := opts.highlightedTextColor } := by
          simp [applyHighlight, hg, ht]
        rw [hheap] at hd
        by_cases hin : id = nid
        · subst hin
          rw [heapGet_heapSet_self _ _ _ _ hg] at hd
          have hdd := Option.some.inj hd
          refine ⟨rfl, ?_⟩
          rw [← hdd]
          exact ht
        · rw [heapGet_heapSet_ne _ _ _ _ hin] at hd
          exact absurd hcol (hroot id d hd)

lemma process_inv {opts : Options} {s : InteractState} {h : Option ℕ}
    (hc : opts.textColor ≠ opts.highlightedTextColor)
    (hinv : HighlightInv opts s) :
    HighlightInv opts (processIntersections opts s h) := by
  by_cases hs : s.highlighted = h
  · rw [processIntersections_self hs]
    exact hinv
  · have heq : processIntersections opts s h
        = { applyHighlight opts (resetHighlight opts s) h with
            highlighted := h } := by
      simp [processIntersections, hs]
    rw [heq]
    exact apply_inv (reset_no_highlight hc hinv)

lemma micro_atMostOne {opts : Options} {s : InteractState} {h : Option ℕ}
    (hc : opts.textColor ≠ opts.highlightedTextColor)
    (hinv : HighlightInv opts s) :
    ∀ t ∈ microTrace opts s h, AtMostOneHighlighted opts t := by
  intro t ht
  by_cases hs : s.highlighted = h
  · simp only [microTrace, hs, if_true, List.mem_singleton] at ht
    subst ht
    exact inv_atMostOne hinv
  · simp only [microTrace, hs, if_false, List.mem_cons, List.mem_singleton,
      List.not_mem_nil, or_false] at ht
    rcases ht with ht | ht | ht
    · subst ht; exact inv_atMostOne hinv
    · subst ht
      intro i j di dj hgi _ hci _
      exact absurd hci (reset_no_highlight hc hinv i di hgi)
    · subst ht
      exact inv_atMostOne (apply_inv (reset_no_highlight hc hinv))

lemma runMicro_atMostOne (opts : Options)
    (hc : opts.textColor ≠ opts.highlightedTextColor) :
    ∀ (hits : List (Option ℕ)) (s : InteractState), HighlightInv opts s →
      ∀ t ∈ runMicroStates opts s hits, AtMostOneHighlighted opts t := by
  intro hits
  induction hits with
  | nil =>
    intro s hinv t ht
    simp only [runMicroStates, List.mem_singleton] at ht
    subst ht
    exact inv_atMostOne hinv
  | cons hd tl ih =>
    intro s hinv t ht
    simp only [runMicroStates, List.mem_append] at ht
    rcases ht with ht | ht
    · exact micro_atMostOne hc hinv t ht
    · exact ih (processIntersections opts s hd) (process_inv hc hinv) t ht

/-- C7: along any run of the interaction loop from an invariant-respecting
state (all colors consistent with the highlight reference, default and
highlight colors distinct), every observable micro-state — including the
one between reset and apply — has at most one highlight-colored mesh; and
on a transition away from a highlighted text mesh, the intermediate state
(after `#resetHighlight`, before `#applyHighlight`) already shows the old
target restored to the default color while the new target is not yet
highlight-colored: the restore strictly precedes the apply. -/
theorem c7_reset_strictly_before_apply (opts : Options) (s0 : InteractState)
    (hits : List (Option ℕ))
    (hc : opts.textColor ≠ opts.highlightedTextColor)
    (hinv : HighlightInv opts s0) :
    (∀ t ∈ runMicroStates opts s0 hits, AtMostOneHighlighted opts t)
    ∧ (∀ (s : InteractState) (h : Option ℕ) (old : ℕ) (dold : MeshData),
        HighlightInv opts s → s.highlighted = some old → h ≠ some old →
        heapGet s.heap old = some dold → dold.text ≠ "" →
        ∃ mid, (microTrace opts s h).get? 1 = some mid
          ∧ (heapGet mid.heap old).map MeshData.color = some opts.textColor
          ∧ ∀ nid dn, h = some nid → heapGet mid.heap nid = some dn →
              dn.color ≠ opts.highlightedTextColor) := by
  constructor
  · exact runMicro_atMostOne opts hc hits s0 hinv
  · intro s h old dold hinv' hold hne hget htext
    have hs : ¬ s.highlighted = h := by
      rw [hold]
      exact fun hh => hne hh.symm
    refine ⟨resetHighlight opts s, by simp [microTrace, hs], ?_, ?_⟩
    · have hheap : (resetHighlight opts s).heap
          = heapSet s.heap old { dold with color := opts.textColor } := by
        simp [resetHighlight, hold, hget, htext]
      rw [hheap, heapGet_heapSet_self s.heap old _ dold hget]
      rfl
    · intro nid dn hnid hgetn
      subst hnid
      have hno : nid ≠ old := fun hh => hne (by rw [hh])
      have hheap : (resetHighlight opts s).heap
          = heapSet s.heap old { dold with color := opts.textColor } := by
        simp [resetHighlight, hold, hget, htext]
      rw [hheap, heapGet_heapSet_ne _ _ _ _ hno] at hgetn
      intro hcol
      have h1 := (hinv' nid dn hgetn hcol).1
      rw [hold] at h1
      exact hno (Option.some.inj h1).symm

/-- Witness for `c7_reset_strictly_before_apply` at a concrete run. -/
theorem c7_witness :
    optsA.textColor ≠ optsA.highlightedTextColor
    ∧ HighlightInv optsA stateEmpty
    ∧ ∀ t ∈ runMicroStates optsA stateEmpty [some 0, none],
        AtMostOneHighlighted optsA t :=
  ⟨by decide,
    fun id d hd => absurd hd (by simp [stateEmpty, heapGet]),
    (c7_reset_strictly_before_apply optsA stateEmpty [some 0, none]
      (by decide)
      (fun id d hd => absurd hd (by simp [stateEmpty, heapGet]))).1⟩
